import Mathlib

/-!
Shallow embedding of the CVE summary-report engine (`buildSummary` and
`renderMarkdown`): the aggregation of classified vulnerability findings into a
structured summary and its deterministic markdown rendering.

Modelling conventions:
* JS objects built by `_.countBy` / `_.groupBy` are insertion-ordered
  association lists (`List (String × _)`), since key insertion order is
  observable in the rendered report.
* Tolerant field access (`_.get` with or without a default) becomes `Option`
  fields with explicit defaults at each read site.
* JS numbers carrying confidence scores are modelled as rationals `ℚ`;
  `_.round(x, 2)` (half toward +∞) becomes `⌊100·x + 1/2⌋ / 100`.
* `_.compact` drops JS-falsey entries: both `undefined` (here `none`) and the
  number `0` (`NaN` has no rational counterpart and is out of the model).
* The wall-clock timestamp read inside `buildSummary` is passed in as the
  `generatedAt` argument; everything else is a pure function of the findings.
-/

set_option maxHeartbeats 1000000

namespace CveBump

/-- A classified vulnerability finding, the input record of `buildSummary`.
Every field is optional because the source reads each one through tolerant
lodash access (`_.get`). -/
structure Finding where
  cveId : Option String := none
  packageUrl : Option String := none
  severity : Option String := none
  classification : Option String := none
  fixVersion : Option String := none
  confidence : Option ℚ := none
deriving Repr, DecidableEq

/-- One step of `_.countBy`: increment the bucket of key `k`, appending a fresh
bucket at the end when `k` has not been seen (JS object insertion order). -/
def bump (k : String) : List (String × Nat) → List (String × Nat)
  | [] => [(k, 1)]
  | (k', n) :: rest => if k' = k then (k', n + 1) :: rest else (k', n) :: bump k rest

/-- `_.countBy(l, key)` as an insertion-ordered association list. -/
def countBy (key : α → String) (l : List α) : List (String × Nat) :=
  l.foldl (fun acc a => bump (key a) acc) []

/-- `_.defaults(obj, src)`: append each `src` pair whose key is still absent,
in `src` order, after the existing keys. -/
def defaults (obj src : List (String × Nat)) : List (String × Nat) :=
  src.foldl (fun acc p => if acc.any (fun q => q.1 = p.1) then acc else acc ++ [p]) obj

/-- One step of `_.groupBy`: append `a` to the group of key `k`, creating the
group at the end when `k` has not been seen. -/
def addToGroup (k : String) (a : α) : List (String × List α) → List (String × List α)
  | [] => [(k, [a])]
  | (k', xs) :: rest =>
    if k' = k then (k', xs ++ [a]) :: rest else (k', xs) :: addToGroup k a rest

/-- `_.groupBy(l, key)` as an insertion-ordered association list of groups. -/
def groupBy (key : α → String) (l : List α) : List (String × List α) :=
  l.foldl (fun acc a => addToGroup (key a) a acc) []

/-- JS `String.prototype.toUpperCase` on ASCII data: uppercase every
character (`String.map Char.toUpper`, written on the character list so that it
evaluates by kernel reduction). -/
def toUpperStr (s : String) : String := String.mk (s.data.map Char.toUpper)

/-- The JS `\w` character class: ASCII letters, digits and underscore. -/
def isWordChar (c : Char) : Bool := c.isAlphanum || c = '_'

/-- The literal `pkg:` prefix of the regex `/^pkg:(\w+)\//`. -/
def stripPkg : List Char → Option (List Char)
  | 'p' :: 'k' :: 'g' :: ':' :: rest => some rest
  | _ => none

/-- The `(\w+)\/` part of the regex, applied to what follows `pkg:`: a
nonempty maximal run of word characters must be followed immediately by `/`;
its capture is returned, `"unknown"` otherwise. -/
def regexCapture (rest : List Char) : String :=
  match rest.takeWhile isWordChar, rest.dropWhile isWordChar with
  | c :: seg, d :: _ => if d = '/' then String.mk (c :: seg) else "unknown"
  | _, _ => "unknown"

/-- The capture of `purl.match(/^pkg:(\w+)\//)`, or `"unknown"` when the regex
does not match. -/
def ecosystemOfChars (cs : List Char) : String :=
  match stripPkg cs with
  | none => "unknown"
  | some rest => regexCapture rest

/-- The grouping key of the ecosystem partition: absent `packageUrl` defaults
to the empty string before the regex is tried. -/
def ecosystemKey (r : Finding) : String :=
  ecosystemOfChars (r.packageUrl.getD "").data

/-- Per-ecosystem counters derived from one group of the ecosystem partition. -/
structure EcosystemSummary where
  ecosystem : String
  count : Nat
  critical : Nat
  high : Nat
  fixable : Nat
deriving Repr, DecidableEq

/-- Classifications counted as fixable in the ecosystem summaries. -/
def fixableSet : List String := ["SAFE_PATCH", "MINOR_BUMP", "MAJOR_BUMP_SAFE"]

/-- `["SAFE_PATCH","MINOR_BUMP","MAJOR_BUMP_SAFE"].includes(_.get(i, "classification"))`:
an absent classification is `undefined`, which is never in the list. -/
def isFixable (r : Finding) : Bool :=
  match r.classification with
  | some c => fixableSet.contains c
  | none => false

/-- The body of the `_.mapValues` call building one ecosystem summary: the
severity comparisons use strict equality (`===`) on the raw field. -/
def mkEcosystemSummary (p : String × List Finding) : EcosystemSummary :=
  { ecosystem := p.1
    count := p.2.length
    critical := (p.2.filter (fun i => i.severity = some "CRITICAL")).length
    high := (p.2.filter (fun i => i.severity = some "HIGH")).length
    fixable := (p.2.filter isFixable).length }

/-- `_.get(r, "severity", "").toUpperCase()`. -/
def sevUpper (r : Finding) : String := toUpperStr (r.severity.getD "")

/-- First filter of the action chain:
`["CRITICAL","HIGH"].includes(severity.toUpperCase())`. -/
def actionSevOk (r : Finding) : Bool := ["CRITICAL", "HIGH"].contains (sevUpper r)

/-- Second filter of the action chain:
`["SAFE_PATCH","MINOR_BUMP"].includes(_.get(r, "classification"))`. -/
def actionClsOk (r : Finding) : Bool :=
  match r.classification with
  | some c => ["SAFE_PATCH", "MINOR_BUMP"].contains c
  | none => false

/-- The sort key: `_.get({CRITICAL: 0, HIGH: 1}, severity.toUpperCase(), 99)`. -/
def sevRank (r : Finding) : Nat :=
  if sevUpper r = "CRITICAL" then 0 else if sevUpper r = "HIGH" then 1 else 99

/-- Stable insertion of `a` in front of the first element of not-smaller key. -/
def insertByKey (k : α → Nat) (a : α) : List α → List α
  | [] => [a]
  | b :: bs => if k a ≤ k b then a :: b :: bs else b :: insertByKey k a bs

/-- `_.sortBy(l, k)`: a stable sort on a numeric key, modelled as stable
insertion sort. -/
def sortByKey (k : α → Nat) (l : List α) : List α :=
  l.foldr (insertByKey k) []

/-- Projection of a ranked finding into an action-required item. -/
structure ActionItem where
  id : Option String
  pack : Option String
  severity : Option String
  classification : Option String
  fixVersion : Option String
deriving Repr, DecidableEq

/-- `{id: cveId, package: packageUrl, severity, classification, fixVersion}`
(the `package` field is spelt `pack` here). -/
def toActionItem (r : Finding) : ActionItem :=
  { id := r.cveId
    pack := r.packageUrl
    severity := r.severity
    classification := r.classification
    fixVersion := r.fixVersion }

/-- `_.compact(_.map(results, "confidence"))`: drops `undefined` and the
falsey number `0`. -/
def compactConf : List (Option ℚ) → List ℚ
  | [] => []
  | none :: rest => compactConf rest
  | some c :: rest => if c = 0 then compactConf rest else c :: compactConf rest

/-- `_.round(x, 2)`: `Math.round(x * 100) / 100`, rounding half toward `+∞`. -/
def round2 (q : ℚ) : ℚ := (⌊q * 100 + 1 / 2⌋ : ℤ) / 100

/-- `_.mean`: sum divided by length. -/
def meanQ (cs : List ℚ) : ℚ := cs.sum / cs.length

/-- `_.min` over a nonempty list (the empty case is guarded in the source). -/
def listMin : List ℚ → ℚ
  | [] => 0
  | [c] => c
  | c :: rest => min c (listMin rest)

/-- `_.isEmpty(confidences) ? 0 : _.round(_.mean(confidences), 2)`. -/
def avgConfidence (cs : List ℚ) : ℚ := if cs = [] then 0 else round2 (meanQ cs)

/-- `_.isEmpty(confidences) ? 0 : _.min(confidences)`. -/
def minConfidence (cs : List ℚ) : ℚ := if cs = [] then 0 else listMin cs

/-- The three confidence buckets of the summary. -/
structure Distribution where
  high : Nat
  medium : Nat
  low : Nat
deriving Repr, DecidableEq

/-- The distribution: `high` counts `c ≥ 0.8`, `medium` counts
`0.5 ≤ c < 0.8`, `low` counts `c < 0.5`, all over the compacted list. -/
def confDistribution (cs : List ℚ) : Distribution :=
  { high := (cs.filter (fun c => (8 : ℚ) / 10 ≤ c)).length
    medium := (cs.filter (fun c => (5 : ℚ) / 10 ≤ c ∧ c < (8 : ℚ) / 10)).length
    low := (cs.filter (fun c => c < (5 : ℚ) / 10)).length }

/-- The `overview` record of the summary. -/
structure Overview where
  totalVulnerabilities : Nat
  bySeverity : List (String × Nat)
  byClassification : List (String × Nat)
deriving Repr, DecidableEq

/-- The `actionRequired` record of the summary. -/
structure ActionRequired where
  count : Nat
  items : List ActionItem
deriving Repr, DecidableEq

/-- The `confidence` record of the summary. -/
structure ConfidenceStats where
  average : ℚ
  minimum : ℚ
  distribution : Distribution
deriving Repr, DecidableEq

/-- The full summary value returned by `buildSummary`. -/
structure Summary where
  generatedAt : String
  overview : Overview
  ecosystems : List EcosystemSummary
  actionRequired : ActionRequired
  confidence : ConfidenceStats
deriving Repr, DecidableEq

/-- `_.get(r, "severity", "UNKNOWN").toUpperCase()`. -/
def severityKey (r : Finding) : String := toUpperStr (r.severity.getD "UNKNOWN")

/-- `_.get(r, "classification", "UNCLASSIFIED")`. -/
def classificationKey (r : Finding) : String := r.classification.getD "UNCLASSIFIED"

/-- The defaults object seeding the four canonical severity buckets. -/
def canonicalSeverities : List (String × Nat) :=
  [("CRITICAL", 0), ("HIGH", 0), ("MEDIUM", 0), ("LOW", 0)]

/-- The embedded `buildSummary(results)`; the wall-clock timestamp is passed in
as `generatedAt`. -/
def buildSummary (generatedAt : String) (results : List Finding) : Summary :=
  let total := results.length
  let bySeverity := countBy severityKey results
  let byClassification := countBy classificationKey results
  let byEcosystem := groupBy ecosystemKey results
  let ecosystemSummaries := byEcosystem.map mkEcosystemSummary
  let actionRequired :=
    (sortByKey sevRank ((results.filter actionSevOk).filter actionClsOk)).take 10
  let confidences := compactConf (results.map (·.confidence))
  { generatedAt := generatedAt
    overview :=
      { totalVulnerabilities := total
        bySeverity := defaults bySeverity canonicalSeverities
        byClassification := byClassification }
    ecosystems := ecosystemSummaries
    actionRequired :=
      { count := actionRequired.length
        items := actionRequired.map toActionItem }
    confidence :=
      { average := avgConfidence confidences
        minimum := minConfidence confidences
        distribution := confDistribution confidences } }

/-- One line of the "By Classification" section. -/
def classificationLine (p : String × Nat) : String :=
  "- **" ++ p.1 ++ "**: " ++ toString p.2

/-- One line of the "Ecosystems" section. -/
def ecosystemLine (e : EcosystemSummary) : String :=
  "- **" ++ e.ecosystem ++ "**: " ++ toString e.count ++ " vulns (" ++
    toString e.fixable ++ " fixable)"

/-- One line of the "Action Required" section; a JS template literal prints an
absent field as `undefined`, and `fixVersion || "N/A"` treats the empty string
as falsey. -/
def actionLine (i : ActionItem) : String :=
  "- `" ++ i.id.getD "undefined" ++ "` in `" ++ i.pack.getD "undefined" ++ "` — " ++
    i.severity.getD "undefined" ++ " / " ++ i.classification.getD "undefined" ++
    " → fix: " ++
    (match i.fixVersion with
     | some v => if v = "" then "N/A" else v
     | none => "N/A")

/-- The `lines` array of `renderMarkdown`. -/
def renderLines (s : Summary) : List String :=
  ["# Vulnerability Scan Summary", "",
   "**" ++ toString s.overview.totalVulnerabilities ++ "** vulnerabilities found | **" ++
     toString ((s.overview.bySeverity.lookup "CRITICAL").getD 0) ++ "** critical | **" ++
     toString ((s.overview.bySeverity.lookup "HIGH").getD 0) ++ "** high",
   "", "## By Classification"] ++
  s.overview.byClassification.map classificationLine ++
  ["", "## Ecosystems"] ++
  s.ecosystems.map ecosystemLine ++
  ["", "## Action Required (" ++ toString s.actionRequired.count ++ ")"] ++
  s.actionRequired.items.map actionLine ++
  ["", "---",
   "_Confidence: avg " ++ toString s.confidence.average ++ " | min " ++
     toString s.confidence.minimum ++ "_"] ++
  ["_Generated: " ++ s.generatedAt ++ "_"]

/-- `renderMarkdown(summary)`: `_.join(lines, "\n")`. -/
def renderMarkdown (s : Summary) : String :=
  String.intercalate "\n" (renderLines s)

/-- Keys of an association list, in insertion order. -/
def keys (m : List (String × β)) : List String := m.map Prod.fst

/-- Sum of the values of an association list of counters. -/
def sumVals (m : List (String × Nat)) : Nat := (m.map Prod.snd).sum

/-- Findings whose `confidence` field is truthy (present and nonzero): exactly
the ones `_.compact` keeps. -/
def truthyConfCount (results : List Finding) : Nat :=
  (results.filter (fun r => r.confidence.getD 0 ≠ 0)).length

/-- Maximum of a nonempty list of rationals (the observed maximum of the
confidence values; the source computes no maximum, this is the spec's
reference point). -/
def listMax : List ℚ → ℚ
  | [] => 0
  | [c] => c
  | c :: rest => max c (listMax rest)

/-- Head test used to reason about the regex model: does a character list
start with a slash. -/
def isSlashHead : List Char → Bool
  | [] => false
  | c :: _ => c == '/'

/-- The first path segment as the spec (amended) words it: the characters
between `pkg:` and the first `/`, accepted when that segment is nonempty and
made of word characters only, `"unknown"` otherwise. -/
def specSegment (rest : List Char) : String :=
  if '/' ∈ rest then
    if rest.takeWhile (fun c => c ≠ '/') ≠ []
        ∧ (rest.takeWhile (fun c => c ≠ '/')).all isWordChar
      then String.mk (rest.takeWhile (fun c => c ≠ '/'))
      else "unknown"
  else "unknown"

/-- The ecosystem as the spec (amended) words it: when the value starts with
the literal `pkg:` and the remainder up to the first `/` is a nonempty run of
word characters, the ecosystem is that first path segment; in every other case
it is `"unknown"`. -/
def specEcosystemOf (purl : String) : String :=
  match stripPkg purl.data with
  | none => "unknown"
  | some rest => specSegment rest

/-- Test fixture: a finding whose severity is spelt in lower case. -/
def lowercaseCritical : Finding :=
  { cveId := some "CVE-X"
    packageUrl := some "pkg:npm/foo"
    severity := some "critical"
    classification := some "SAFE_PATCH" }

end CveBump

namespace CveBump

theorem sumVals_append (m₁ m₂ : List (String × Nat)) :
    sumVals (m₁ ++ m₂) = sumVals m₁ + sumVals m₂ := by
  simp [sumVals]

theorem sumVals_bump (k : String) (m : List (String × Nat)) :
    sumVals (bump k m) = sumVals m + 1 := by
  induction m with
  | nil => rfl
  | cons p rest ih =>
    rcases p with ⟨k', n⟩
    by_cases h : k' = k
    · simp [bump, h, sumVals]
      omega
    · simp [bump, h, sumVals] at *
      omega

theorem sumVals_countBy_aux (key : α → String) (l : List α) :
    ∀ acc, sumVals (l.foldl (fun acc a => bump (key a) acc) acc)
      = sumVals acc + l.length := by
  induction l with
  | nil => intro acc; simp
  | cons a l ih =>
    intro acc
    rw [List.foldl_cons, ih, sumVals_bump]
    simp
    omega

theorem sumVals_countBy (key : α → String) (l : List α) :
    sumVals (countBy key l) = l.length := by
  have h := sumVals_countBy_aux key l []
  simpa [countBy, sumVals] using h

theorem defaults_cons (obj : List (String × Nat)) (p : String × Nat)
    (src : List (String × Nat)) :
    defaults obj (p :: src)
      = defaults (if obj.any (fun q => q.1 = p.1) then obj else obj ++ [p]) src := rfl

theorem sumVals_defaults (src : List (String × Nat)) (h : ∀ p ∈ src, p.2 = 0) :
    ∀ obj, sumVals (defaults obj src) = sumVals obj := by
  induction src with
  | nil => intro obj; rfl
  | cons p src ih =>
    intro obj
    rw [defaults_cons]
    have hsrc : ∀ q ∈ src, q.2 = 0 := fun q hq => h q (List.mem_cons_of_mem _ hq)
    by_cases hc : obj.any (fun q => q.1 = p.1)
    · simp only [if_pos hc]
      exact ih hsrc obj
    · simp only [if_neg hc]
      rw [ih hsrc (obj ++ [p]), sumVals_append]
      have hp : p.2 = 0 := h p (List.mem_cons_self p src)
      simp [sumVals, hp]

theorem mem_keys_bump (a k : String) (m : List (String × Nat)) :
    a ∈ keys (bump k m) ↔ a = k ∨ a ∈ keys m := by
  induction m with
  | nil => simp [bump, keys]
  | cons p rest ih =>
    rcases p with ⟨k', n⟩
    by_cases h : k' = k
    · subst h
      have hb : bump k' ((k', n) :: rest) = (k', n + 1) :: rest := by simp [bump]
      rw [hb]
      simp only [keys, List.map_cons, List.mem_cons]
      tauto
    · have hb : bump k ((k', n) :: rest) = (k', n) :: bump k rest := by simp [bump, h]
      rw [hb]
      simp only [keys, List.map_cons, List.mem_cons]
      simp only [keys] at ih
      rw [ih]
      tauto

theorem mem_keys_countBy_aux (key : α → String) (l : List α) (a : String) :
    ∀ acc, a ∈ keys (l.foldl (fun acc r => bump (key r) acc) acc)
      ↔ a ∈ keys acc ∨ ∃ r ∈ l, key r = a := by
  induction l with
  | nil => intro acc; simp
  | cons r l ih =>
    intro acc
    rw [List.foldl_cons, ih, mem_keys_bump]
    constructor
    · rintro ((h | h) | ⟨r', hr', h⟩)
      · exact Or.inr ⟨r, List.mem_cons_self r l, h.symm⟩
      · exact Or.inl h
      · exact Or.inr ⟨r', List.mem_cons_of_mem _ hr', h⟩
    · rintro (h | ⟨r', hr', h⟩)
      · exact Or.inl (Or.inr h)
      · rcases List.mem_cons.1 hr' with h' | h'
        · subst h'
          exact Or.inl (Or.inl h.symm)
        · exact Or.inr ⟨r', h', h⟩

theorem mem_keys_countBy (key : α → String) (l : List α) (a : String) :
    a ∈ keys (countBy key l) ↔ ∃ r ∈ l, key r = a := by
  have h := mem_keys_countBy_aux key l a []
  simpa [countBy, keys] using h

theorem any_key_iff (x : String) (m : List (String × Nat)) :
    m.any (fun q => q.1 = x) = true ↔ x ∈ keys m := by
  induction m with
  | nil => simp [keys]
  | cons q rest ih =>
    simp only [List.any_cons, Bool.or_eq_true, decide_eq_true_eq, keys,
      List.map_cons, List.mem_cons] at ih ⊢
    rw [ih]
    constructor
    · rintro (h | h)
      · exact Or.inl h.symm
      · exact Or.inr h
    · rintro (h | h)
      · exact Or.inl h.symm
      · exact Or.inr h

theorem mem_keys_defaults (a : String) (src : List (String × Nat)) :
    ∀ obj, a ∈ keys (defaults obj src) ↔ a ∈ keys obj ∨ a ∈ keys src := by
  induction src with
  | nil => intro obj; simp [defaults, keys]
  | cons p src ih =>
    intro obj
    rw [defaults_cons]
    by_cases hc : obj.any (fun q => q.1 = p.1)
    · have hp : p.1 ∈ keys obj := (any_key_iff p.1 obj).1 (by simpa using hc)
      rw [if_pos (by simpa using hc), ih]
      simp only [keys, List.map_cons, List.mem_cons]
      constructor
      · rintro (h | h)
        · exact Or.inl h
        · exact Or.inr (Or.inr h)
      · rintro (h | h | h)
        · exact Or.inl h
        · exact Or.inl (h ▸ hp)
        · exact Or.inr h
    · rw [if_neg (by simpa using hc), ih]
      simp only [keys, List.map_append, List.map_cons, List.map_nil,
        List.mem_append, List.mem_cons, List.mem_singleton]
      tauto

theorem nodup_keys_bump (k : String) (m : List (String × Nat))
    (h : (keys m).Nodup) : (keys (bump k m)).Nodup := by
  induction m with
  | nil => simp [bump, keys]
  | cons p rest ih =>
    rcases p with ⟨k', n⟩
    have hk' : k' ∉ keys rest ∧ (keys rest).Nodup := by
      simpa [keys, List.nodup_cons] using h
    by_cases hk : k' = k
    · subst hk
      simpa [bump, keys, List.nodup_cons] using hk'
    · have ihr := ih hk'.2
      simp only [bump, if_neg hk, keys, List.map_cons, List.nodup_cons]
      refine ⟨?_, by simpa [keys] using ihr⟩
      intro hmem
      rcases (mem_keys_bump k' k rest).1 (by simpa [keys] using hmem) with h' | h'
      · exact hk h'
      · exact hk'.1 (by simpa [keys] using h')

theorem nodup_keys_countBy_aux (key : α → String) (l : List α) :
    ∀ acc, (keys acc).Nodup
      → (keys (l.foldl (fun acc r => bump (key r) acc) acc)).Nodup := by
  induction l with
  | nil => intro acc h; simpa using h
  | cons r l ih =>
    intro acc h
    rw [List.foldl_cons]
    exact ih _ (nodup_keys_bump _ _ h)

theorem nodup_keys_countBy (key : α → String) (l : List α) :
    (keys (countBy key l)).Nodup :=
  nodup_keys_countBy_aux key l [] (by simp [keys])

theorem nodup_keys_defaults (src : List (String × Nat)) :
    ∀ obj, (keys obj).Nodup → (keys (defaults obj src)).Nodup := by
  induction src with
  | nil => intro obj h; simpa [defaults] using h
  | cons p src ih =>
    intro obj h
    rw [defaults_cons]
    by_cases hc : obj.any (fun q => q.1 = p.1)
    · rw [if_pos (by simpa using hc)]
      exact ih obj h
    · rw [if_neg (by simpa using hc)]
      refine ih _ ?_
      have hp : p.1 ∉ keys obj := by
        intro hmem
        exact hc (by simpa using (any_key_iff p.1 obj).2 hmem)
      have : keys (obj ++ [p]) = keys obj ++ [p.1] := by simp [keys]
      rw [this]
      exact List.Nodup.append h (List.nodup_singleton p.1)
        (by simpa [List.disjoint_singleton] using hp)

theorem length_filter_conf_partition (cs : List ℚ) :
    (cs.filter (fun c => (8 : ℚ) / 10 ≤ c)).length
      + (cs.filter (fun c => (5 : ℚ) / 10 ≤ c ∧ c < (8 : ℚ) / 10)).length
      + (cs.filter (fun c => c < (5 : ℚ) / 10)).length = cs.length := by
  induction cs with
  | nil => rfl
  | cons c cs ih =>
    simp only [List.filter_cons, decide_eq_true_eq]
    by_cases h1 : c < (5 : ℚ) / 10
    · rw [if_neg (by linarith : ¬ ((8 : ℚ) / 10 ≤ c)),
        if_neg (fun h => absurd h.1 (not_le.2 h1) :
          ¬ ((5 : ℚ) / 10 ≤ c ∧ c < (8 : ℚ) / 10)),
        if_pos h1]
      simp only [List.length_cons]
      omega
    · have h5 : (5 : ℚ) / 10 ≤ c := not_lt.1 h1
      by_cases h2 : c < (8 : ℚ) / 10
      · rw [if_neg (by linarith : ¬ ((8 : ℚ) / 10 ≤ c)), if_pos ⟨h5, h2⟩, if_neg h1]
        simp only [List.length_cons]
        omega
      · rw [if_pos (not_lt.1 h2),
          if_neg (fun h => h2 h.2 : ¬ ((5 : ℚ) / 10 ≤ c ∧ c < (8 : ℚ) / 10)),
          if_neg h1]
        simp only [List.length_cons]
        omega

theorem compactConf_length (results : List Finding) :
    (compactConf (results.map (fun r => r.confidence))).length
      = truthyConfCount results := by
  induction results with
  | nil => rfl
  | cons r rest ih =>
    simp only [truthyConfCount, List.map_cons, List.filter_cons] at ih ⊢
    cases hc : r.confidence with
    | none =>
      simp [compactConf, hc, ih]
    | some c =>
      by_cases h0 : c = 0
      · subst h0
        simp [compactConf, hc, ih]
      · simp [compactConf, hc, h0, ih]

theorem lookup_isSome_iff (a : String) (m : List (String × Nat)) :
    (m.lookup a).isSome = true ↔ a ∈ keys m := by
  induction m with
  | nil => simp [List.lookup, keys]
  | cons p rest ih =>
    rcases p with ⟨k, v⟩
    by_cases h : a = k
    · subst h
      simp [List.lookup, keys]
    · have hbeq : (a == k) = false := by simpa using h
      simp [List.lookup, hbeq, keys, h, ih]

theorem length_filter_add_le (l : List α) (p q : α → Bool)
    (h : ∀ a, ¬ (p a = true ∧ q a = true)) :
    (l.filter p).length + (l.filter q).length ≤ l.length := by
  induction l with
  | nil => simp
  | cons a l ih =>
    simp only [List.filter_cons]
    by_cases hp : p a = true
    · have hq : ¬ q a = true := fun hq => h a ⟨hp, hq⟩
      simp only [if_pos hp, if_neg hq, List.length_cons]
      omega
    · by_cases hq : q a = true
      · simp only [if_neg hp, if_pos hq, List.length_cons]
        omega
      · simp only [if_neg hp, if_neg hq, List.length_cons]
        omega

/-- C1, counterexample: for the findings array holding one finding whose
`confidence` is the defined value `0`, the three distribution buckets sum to
`0`, not to the number (`1`) of findings with a defined confidence —
`_.compact` also drops the falsey value `0`, not only `undefined`. -/
theorem confidence_distribution_defined_cex :
    ¬ ((buildSummary "t" [{ confidence := some 0 }]).confidence.distribution.high
        + (buildSummary "t" [{ confidence := some 0 }]).confidence.distribution.medium
        + (buildSummary "t" [{ confidence := some 0 }]).confidence.distribution.low
      = (List.filter (fun r => r.confidence.isSome)
          [({ confidence := some 0 } : Finding)]).length) := by
  simp [buildSummary, compactConf, confDistribution]

/-- C1 (amended): for every findings array, the three confidence distribution
buckets of the summary sum to the number of findings whose `confidence` is
truthy — present and nonzero; these are exactly the values `_.compact`
collects, so a finding lacking a confidence (or carrying the falsey `0`) is
excluded from the denominator rather than defaulted. -/
theorem confidence_distribution_sum (ts : String) (results : List Finding) :
    (buildSummary ts results).confidence.distribution.high
      + (buildSummary ts results).confidence.distribution.medium
      + (buildSummary ts results).confidence.distribution.low
      = truthyConfCount results := by
  have h := length_filter_conf_partition (compactConf (results.map fun r => r.confidence))
  have h2 := compactConf_length results
  simp only [buildSummary, confDistribution]
  rw [h, h2]

/-- C6: for every findings array, the values of the `bySeverity` mapping (the
four canonical buckets seeded by `_.defaults` plus every ad-hoc bucket built by
`_.countBy` over the uppercased severity, with absent severity bucketed as
`UNKNOWN`) sum to the length of the findings array. -/
theorem bySeverity_total (ts : String) (results : List Finding) :
    sumVals (buildSummary ts results).overview.bySeverity = results.length := by
  simp only [buildSummary]
  rw [sumVals_defaults canonicalSeverities (by decide), sumVals_countBy]

/-- C8: for the empty findings array, `buildSummary` returns a summary with
total `0`, the four canonical severity counts `0`, an empty classification
mapping, no ecosystems, an empty action list with count `0`, confidence
average and minimum `0`, and all three distribution buckets `0`. -/
theorem buildSummary_empty (ts : String) :
    buildSummary ts [] =
      { generatedAt := ts
        overview :=
          { totalVulnerabilities := 0
            bySeverity := [("CRITICAL", 0), ("HIGH", 0), ("MEDIUM", 0), ("LOW", 0)]
            byClassification := [] }
        ecosystems := []
        actionRequired := { count := 0, items := [] }
        confidence := { average := 0, minimum := 0, distribution := ⟨0, 0, 0⟩ } } := rfl

/-- C10: severity comparison is case-sensitive in the ecosystem summaries but
case-insensitive in the action ranker: a finding with severity `"critical"`
(lower case) and classification `SAFE_PATCH` appears in the action-required
items and is counted under the `CRITICAL` key of `bySeverity`, yet the
`critical` counter of its ecosystem summary does not count it. -/
theorem severity_case_asymmetry :
    (buildSummary "t" [lowercaseCritical]).actionRequired.items
        = [{ id := some "CVE-X", pack := some "pkg:npm/foo",
             severity := some "critical", classification := some "SAFE_PATCH",
             fixVersion := none }]
      ∧ (buildSummary "t" [lowercaseCritical]).overview.bySeverity.lookup "CRITICAL"
        = some 1
      ∧ (buildSummary "t" [lowercaseCritical]).ecosystems
        = [{ ecosystem := "npm", count := 1, critical := 0, high := 0, fixable := 1 }] :=
  ⟨rfl, rfl, rfl⟩

/-- C5: for every findings array (the empty one included), the `bySeverity`
mapping contains the four canonical keys `CRITICAL`, `HIGH`, `MEDIUM`, `LOW`
with values `≥ 0`, every observed severity key is present, every present key is
canonical or actually observed, and no key appears twice. -/
theorem bySeverity_canonical_keys (ts : String) (results : List Finding) :
    (((buildSummary ts results).overview.bySeverity.lookup "CRITICAL").isSome = true
        ∧ ((buildSummary ts results).overview.bySeverity.lookup "HIGH").isSome = true
        ∧ ((buildSummary ts results).overview.bySeverity.lookup "MEDIUM").isSome = true
        ∧ ((buildSummary ts results).overview.bySeverity.lookup "LOW").isSome = true)
      ∧ ((buildSummary ts results).overview.bySeverity.all (fun p => 0 ≤ p.2)) = true
      ∧ (results.all (fun r =>
          ((buildSummary ts results).overview.bySeverity.lookup (severityKey r)).isSome))
          = true
      ∧ ((buildSummary ts results).overview.bySeverity.all (fun p =>
          p.1 = "CRITICAL" ∨ p.1 = "HIGH" ∨ p.1 = "MEDIUM" ∨ p.1 = "LOW"
            ∨ results.any (fun r => severityKey r = p.1))) = true
      ∧ (keys (buildSummary ts results).overview.bySeverity).Nodup := by
  simp only [buildSummary]
  refine ⟨⟨?_, ?_, ?_, ?_⟩, ?_, ?_, ?_, ?_⟩
  · exact (lookup_isSome_iff _ _).2
      ((mem_keys_defaults _ _ _).2 (Or.inr (by simp [canonicalSeverities, keys])))
  · exact (lookup_isSome_iff _ _).2
      ((mem_keys_defaults _ _ _).2 (Or.inr (by simp [canonicalSeverities, keys])))
  · exact (lookup_isSome_iff _ _).2
      ((mem_keys_defaults _ _ _).2 (Or.inr (by simp [canonicalSeverities, keys])))
  · exact (lookup_isSome_iff _ _).2
      ((mem_keys_defaults _ _ _).2 (Or.inr (by simp [canonicalSeverities, keys])))
  · simp
  · rw [List.all_eq_true]
    intro r hr
    exact (lookup_isSome_iff _ _).2
      ((mem_keys_defaults _ _ _).2
        (Or.inl ((mem_keys_countBy severityKey results _).2 ⟨r, hr, rfl⟩)))
  · rw [List.all_eq_true]
    intro p hp
    have hk : p.1 ∈ keys (defaults (countBy severityKey results) canonicalSeverities) :=
      List.mem_map_of_mem Prod.fst hp
    rcases (mem_keys_defaults _ _ _).1 hk with h | h
    · rcases (mem_keys_countBy severityKey results _).1 h with ⟨r, hr, hkey⟩
      have : results.any (fun r => severityKey r = p.1) = true :=
        List.any_eq_true.2 ⟨r, hr, by simp [hkey]⟩
      simp [this]
    · have h4 : p.1 = "CRITICAL" ∨ p.1 = "HIGH" ∨ p.1 = "MEDIUM" ∨ p.1 = "LOW" := by
        simpa [canonicalSeverities, keys] using h
      simp only [decide_eq_true_eq]
      tauto
  · exact nodup_keys_defaults canonicalSeverities _ (nodup_keys_countBy severityKey results)

/-- C7: every ecosystem summary of every findings array satisfies
`critical + high ≤ count` and `fixable ≤ count`: `critical` and `high` count
the disjoint subsets with severity exactly `CRITICAL` resp. `HIGH`, and
`fixable` counts a subset of the group. -/
theorem ecosystem_counters_bounded (ts : String) (results : List Finding)
    (e : EcosystemSummary) (he : e ∈ (buildSummary ts results).ecosystems) :
    e.critical + e.high ≤ e.count ∧ e.fixable ≤ e.count := by
  simp only [buildSummary] at he
  rcases List.mem_map.1 he with ⟨p, hp, rfl⟩
  simp only [mkEcosystemSummary]
  constructor
  · refine length_filter_add_le p.2 _ _ ?_
    rintro i ⟨h1, h2⟩
    simp only [decide_eq_true_eq] at h1 h2
    rw [h1] at h2
    exact absurd (Option.some.inj h2) (by decide)
  · exact List.length_filter_le _ _

theorem isWordChar_slash : isWordChar '/' = false := by decide

theorem slashHead_dropWhile_iff (rest : List Char) :
    isSlashHead (rest.dropWhile isWordChar) = true
      ↔ ('/' ∈ rest ∧ (rest.takeWhile (fun c => c ≠ '/')).all isWordChar = true) := by
  induction rest with
  | nil => simp [isSlashHead]
  | cons c cs ih =>
    by_cases hw : isWordChar c = true
    · have hne : ¬ (c = '/') := fun h => by
        rw [h] at hw
        exact absurd hw (by decide)
      rw [List.dropWhile_cons, if_pos hw, List.takeWhile_cons,
        if_pos (by simpa using hne), ih]
      simp only [List.mem_cons, List.all_cons, Bool.and_eq_true, hw]
      constructor
      · rintro ⟨hm, ha⟩
        exact ⟨Or.inr hm, trivial, ha⟩
      · rintro ⟨hm, _, ha⟩
        rcases hm with hm | hm
        · exact absurd hm.symm hne
        · exact ⟨hm, ha⟩
    · rw [List.dropWhile_cons, if_neg hw]
      by_cases hc : c = '/'
      · subst hc
        simp [isSlashHead, List.takeWhile_cons]
      · rw [List.takeWhile_cons, if_pos (by simpa using hc)]
        simp only [isSlashHead, List.all_cons, Bool.and_eq_true]
        constructor
        · intro h
          exact absurd (by simpa using h) hc
        · rintro ⟨_, h, _⟩
          exact absurd h hw

theorem takeWhile_eq_of_slashHead (rest : List Char)
    (h : isSlashHead (rest.dropWhile isWordChar) = true) :
    rest.takeWhile isWordChar = rest.takeWhile (fun c => c ≠ '/') := by
  induction rest with
  | nil => rfl
  | cons c cs ih =>
    by_cases hw : isWordChar c = true
    · have hne : ¬ (c = '/') := fun hcc => by
        rw [hcc] at hw
        exact absurd hw (by decide)
      rw [List.dropWhile_cons, if_pos hw] at h
      rw [List.takeWhile_cons, if_pos hw, List.takeWhile_cons,
        if_pos (by simpa using hne), ih h]
    · rw [List.dropWhile_cons, if_neg hw] at h
      have hc : c = '/' := by simpa [isSlashHead] using h
      subst hc
      rw [List.takeWhile_cons, if_neg (by decide), List.takeWhile_cons,
        if_neg (by simp)]

/-- C2, counterexample: for the finding whose `packageUrl` is `"pkg:a-b/x"`,
the substring between `pkg:` and the first `/` is `"a-b"`, yet the finding is
grouped under `"unknown"` — the regex `\w+` rejects the hyphen even though the
value has the shape `pkg:<ecosystem>/<rest>`. -/
theorem ecosystem_first_segment_cex :
    String.mk ((("pkg:a-b/x".data).drop 4).takeWhile (fun c => c ≠ '/')) = "a-b"
      ∧ ecosystemKey { packageUrl := some "pkg:a-b/x" } = "unknown"
      ∧ ecosystemKey { packageUrl := some "pkg:a-b/x" }
          ≠ String.mk ((("pkg:a-b/x".data).drop 4).takeWhile (fun c => c ≠ '/')) :=
  ⟨rfl, rfl, by decide⟩

theorem regexCapture_eq_specSegment (rest : List Char) :
    regexCapture rest = specSegment rest := by
  unfold regexCapture specSegment
  split
  · rename_i c seg d ds htw2 hdw
    by_cases hds : d = '/'
    · subst hds
      have hd : isSlashHead (rest.dropWhile isWordChar) = true := by
        rw [hdw]
        simp [isSlashHead]
      have hma := (slashHead_dropWhile_iff rest).1 hd
      have htw := takeWhile_eq_of_slashHead rest hd
      rw [if_pos rfl, if_pos hma.1,
        if_pos ⟨by rw [← htw, htw2]; simp, hma.2⟩, ← htw, htw2]
    · have hd : ¬ isSlashHead (rest.dropWhile isWordChar) = true := by
        rw [hdw]
        simpa [isSlashHead] using hds
      rw [if_neg hds]
      by_cases hmem : '/' ∈ rest
      · rw [if_pos hmem,
          if_neg (fun hcond => hd ((slashHead_dropWhile_iff rest).2 ⟨hmem, hcond.2⟩))]
      · rw [if_neg hmem]
  · rename_i hfb
    by_cases hd : isSlashHead (rest.dropWhile isWordChar) = true
    · have hma := (slashHead_dropWhile_iff rest).1 hd
      have htw := takeWhile_eq_of_slashHead rest hd
      have htw2 : rest.takeWhile isWordChar = [] := by
        cases htw2 : rest.takeWhile isWordChar with
        | nil => rfl
        | cons c seg =>
          cases hdw : rest.dropWhile isWordChar with
          | nil =>
            rw [hdw] at hd
            exact absurd hd (by simp [isSlashHead])
          | cons d ds => exact (hfb c seg d ds htw2 hdw).elim
      rw [if_pos hma.1, if_neg (fun hcond => hcond.1 (htw ▸ htw2))]
    · by_cases hmem : '/' ∈ rest
      · rw [if_pos hmem,
          if_neg (fun hcond => hd ((slashHead_dropWhile_iff rest).2 ⟨hmem, hcond.2⟩))]
      · rw [if_neg hmem]

/-- C2 (amended): for every finding, the ecosystem it is grouped under is the
first path segment of its `packageUrl` after the literal prefix `pkg:`
whenever that segment is a nonempty run of word characters (letters, digits,
underscore) followed by `/`, and is `"unknown"` in every other case (absent
`packageUrl` included): the grouping key agrees everywhere with the
spec-worded `specEcosystemOf`. -/
theorem ecosystemKey_spec (r : Finding) :
    ecosystemKey r = specEcosystemOf (r.packageUrl.getD "") := by
  unfold ecosystemKey specEcosystemOf ecosystemOfChars
  cases hs : stripPkg (r.packageUrl.getD "").data with
  | none => rfl
  | some rest => exact regexCapture_eq_specSegment rest

theorem listMin_mul_le_sum (cs : List ℚ) (h : cs ≠ []) :
    listMin cs * cs.length ≤ cs.sum := by
  induction cs with
  | nil => exact absurd rfl h
  | cons c rest ih =>
    cases rest with
    | nil => simp [listMin]
    | cons c' rest' =>
      have hmin : listMin (c :: c' :: rest') = min c (listMin (c' :: rest')) := rfl
      have ih' := ih (by simp)
      rw [hmin]
      set L := listMin (c' :: rest') with hL
      have h1 : min c L ≤ c := min_le_left c L
      have h2 : min c L ≤ L := min_le_right c L
      have hn : (0 : ℚ) ≤ ((c' :: rest').length : ℚ) := by positivity
      have h3 : min c L * ((c' :: rest').length : ℚ)
          ≤ L * ((c' :: rest').length : ℚ) := mul_le_mul_of_nonneg_right h2 hn
      simp only [List.length_cons, List.sum_cons] at *
      push_cast at *
      linarith

theorem sum_le_listMax_mul (cs : List ℚ) (h : cs ≠ []) :
    cs.sum ≤ listMax cs * cs.length := by
  induction cs with
  | nil => exact absurd rfl h
  | cons c rest ih =>
    cases rest with
    | nil => simp [listMax]
    | cons c' rest' =>
      have hmax : listMax (c :: c' :: rest') = max c (listMax (c' :: rest')) := rfl
      have ih' := ih (by simp)
      rw [hmax]
      set L := listMax (c' :: rest') with hL
      have h1 : c ≤ max c L := le_max_left c L
      have h2 : L ≤ max c L := le_max_right c L
      have hn : (0 : ℚ) ≤ ((c' :: rest').length : ℚ) := by positivity
      have h3 : L * ((c' :: rest').length : ℚ)
          ≤ max c L * ((c' :: rest').length : ℚ) := mul_le_mul_of_nonneg_right h2 hn
      simp only [List.length_cons, List.sum_cons] at *
      push_cast at *
      linarith

theorem listMin_le_meanQ (cs : List ℚ) (h : cs ≠ []) : listMin cs ≤ meanQ cs := by
  have hlen : (0 : ℚ) < (cs.length : ℚ) := by
    have hp : 0 < cs.length := List.length_pos.2 h
    exact_mod_cast hp
  rw [meanQ, le_div_iff₀ hlen]
  exact listMin_mul_le_sum cs h

theorem meanQ_le_listMax (cs : List ℚ) (h : cs ≠ []) : meanQ cs ≤ listMax cs := by
  have hlen : (0 : ℚ) < (cs.length : ℚ) := by
    have hp : 0 < cs.length := List.length_pos.2 h
    exact_mod_cast hp
  rw [meanQ, div_le_iff₀ hlen]
  exact sum_le_listMax_mul cs h

theorem round2_le (q : ℚ) : round2 q ≤ q + 1 / 200 := by
  unfold round2
  have h := Int.floor_le (q * 100 + 1 / 2)
  have h100 : (0 : ℚ) < 100 := by norm_num
  rw [div_le_iff₀ h100]
  linarith

theorem le_round2 (q : ℚ) : q - 1 / 200 ≤ round2 q := by
  unfold round2
  have h := Int.lt_floor_add_one (q * 100 + 1 / 2)
  have h100 : (0 : ℚ) < 100 := by norm_num
  rw [le_div_iff₀ h100]
  linarith

/-- C3, counterexample: for the findings array holding one finding with
confidence `0.444`, the average is rounded to `0.44`, which lies strictly
below the minimum `0.444`: rounding to two decimal places can push the
average outside `[minimum, max observed]`. -/
theorem confidence_average_below_min_cex :
    (buildSummary "t" [{ confidence := some (444 / 1000) }]).confidence.average
      < (buildSummary "t" [{ confidence := some (444 / 1000) }]).confidence.minimum := by
  norm_num [buildSummary, compactConf, avgConfidence, minConfidence, meanQ,
    round2, listMin]

/-- C3 (amended): whenever at least one finding carries a truthy confidence
value (so the collected set is nonempty), the summary's average — the mean
rounded half-up to two decimal places — lies within the interval
`[minimum − 1/200, max collected + 1/200]`: the original closed interval
`[minimum, max]` widened by exactly the half-unit the rounding can move the
mean. -/
theorem confidence_average_range (ts : String) (results : List Finding)
    (h : compactConf (results.map fun r => r.confidence) ≠ []) :
    (buildSummary ts results).confidence.minimum - 1 / 200
        ≤ (buildSummary ts results).confidence.average
      ∧ (buildSummary ts results).confidence.average
        ≤ listMax (compactConf (results.map fun r => r.confidence)) + 1 / 200 := by
  simp only [buildSummary, avgConfidence, minConfidence]
  rw [if_neg h, if_neg h]
  constructor
  · have h1 := listMin_le_meanQ _ h
    have h2 := le_round2 (meanQ (compactConf (results.map fun r => r.confidence)))
    linarith
  · have h1 := meanQ_le_listMax _ h
    have h2 := round2_le (meanQ (compactConf (results.map fun r => r.confidence)))
    linarith

/-- C3 witness: the widened range instantiated on a singleton findings array
with confidence `1`. -/
theorem confidence_average_range_witness :
    (buildSummary "t" [{ confidence := some 1 }]).confidence.minimum - 1 / 200
        ≤ (buildSummary "t" [{ confidence := some 1 }]).confidence.average
      ∧ (buildSummary "t" [{ confidence := some 1 }]).confidence.average
        ≤ listMax (compactConf
            ([({ confidence := some 1 } : Finding)].map fun r => r.confidence)) + 1 / 200 :=
  confidence_average_range "t" [{ confidence := some 1 }] (by simp [compactConf])

theorem insertByKey_front (k : α → Nat) (a : α) (l : List α)
    (h : ∀ b ∈ l, k a ≤ k b) : insertByKey k a l = a :: l := by
  cases l with
  | nil => rfl
  | cons b bs =>
    simp only [insertByKey]
    rw [if_pos (h b (List.mem_cons_self b bs))]

theorem insertByKey_append (k : α → Nat) (a : α) (xs ys : List α)
    (h : ∀ x ∈ xs, k x < k a) :
    insertByKey k a (xs ++ ys) = xs ++ insertByKey k a ys := by
  induction xs with
  | nil => rfl
  | cons x xs ih =>
    have hx : k x < k a := h x (List.mem_cons_self x xs)
    simp only [List.cons_append, insertByKey, List.append_eq]
    rw [if_neg (not_le.2 hx), ih (fun y hy => h y (List.mem_cons_of_mem _ hy))]

theorem sortByKey_two_valued (k : α → Nat) (l : List α)
    (h : ∀ a ∈ l, k a = 0 ∨ k a = 1) :
    sortByKey k l
      = l.filter (fun a => k a = 0) ++ l.filter (fun a => k a = 1) := by
  induction l with
  | nil => rfl
  | cons a l ih =>
    have hl : ∀ b ∈ l, k b = 0 ∨ k b = 1 := fun b hb => h b (List.mem_cons_of_mem _ hb)
    have hsort : sortByKey k (a :: l) = insertByKey k a (sortByKey k l) := rfl
    rw [hsort, ih hl]
    rcases h a (List.mem_cons_self a l) with h0 | h1
    · rw [insertByKey_front k a _ (fun b _ => by rw [h0]; exact Nat.zero_le _)]
      rw [List.filter_cons, List.filter_cons, if_pos (by simp [h0]),
        if_neg (by simp [h0])]
      rfl
    · have hstep : insertByKey k a
          (l.filter (fun b => k b = 0) ++ l.filter (fun b => k b = 1))
          = l.filter (fun b => k b = 0) ++ insertByKey k a (l.filter (fun b => k b = 1)) := by
        apply insertByKey_append
        intro x hx
        have hx0 : k x = 0 := by simpa using (List.mem_filter.1 hx).2
        omega
      rw [hstep, insertByKey_front k a _ (fun b hb => by
        have hb1 : k b = 1 := by simpa using (List.mem_filter.1 hb).2
        omega)]
      rw [List.filter_cons, List.filter_cons, if_neg (by simp [h1]),
        if_pos (by simp [h1])]

theorem actionSevOk_iff (r : Finding) :
    actionSevOk r = true ↔ (sevUpper r = "CRITICAL" ∨ sevUpper r = "HIGH") := by
  simp [actionSevOk]

theorem actionClsOk_iff (r : Finding) :
    actionClsOk r = true
      ↔ (r.classification = some "SAFE_PATCH" ∨ r.classification = some "MINOR_BUMP") := by
  cases hc : r.classification with
  | none => simp [actionClsOk, hc]
  | some c => simp [actionClsOk, hc]

theorem sevRank_eq_zero_iff (r : Finding) :
    sevRank r = 0 ↔ sevUpper r = "CRITICAL" := by
  by_cases h : sevUpper r = "CRITICAL"
  · simp [sevRank, h]
  · by_cases h2 : sevUpper r = "HIGH"
    · simp [sevRank, h, h2]
    · simp [sevRank, h, h2]

theorem sevRank_eq_one_iff (r : Finding) :
    sevRank r = 1 ↔ sevUpper r = "HIGH" := by
  by_cases h : sevUpper r = "CRITICAL"
  · have : ¬ sevUpper r = "HIGH" := by
      rw [h]
      decide
    simp [sevRank, h, this]
  · by_cases h2 : sevUpper r = "HIGH"
    · simp [sevRank, h, h2]
    · simp [sevRank, h, h2]

/-- C4: for every findings array, the action-required items are exactly the
first at most ten findings — after the stable two-bucket ordering that puts
all `CRITICAL`-ranked findings before all `HIGH`-ranked ones while keeping
input order inside each bucket — among those whose uppercased severity is
`CRITICAL` or `HIGH` and whose classification is `SAFE_PATCH` or `MINOR_BUMP`;
in particular the list never holds more than ten items. -/
theorem action_required_spec (ts : String) (results : List Finding) :
    ((buildSummary ts results).actionRequired.items
        = (((results.filter (fun r =>
              (sevUpper r = "CRITICAL" ∨ sevUpper r = "HIGH")
                ∧ (r.classification = some "SAFE_PATCH"
                    ∨ r.classification = some "MINOR_BUMP"))).filter
                  (fun r => sevUpper r = "CRITICAL")
            ++ (results.filter (fun r =>
              (sevUpper r = "CRITICAL" ∨ sevUpper r = "HIGH")
                ∧ (r.classification = some "SAFE_PATCH"
                    ∨ r.classification = some "MINOR_BUMP"))).filter
                  (fun r => sevUpper r = "HIGH")).take 10).map toActionItem)
      ∧ (buildSummary ts results).actionRequired.items.length ≤ 10 := by
  have hsel : (results.filter actionSevOk).filter actionClsOk
      = results.filter (fun r =>
          (sevUpper r = "CRITICAL" ∨ sevUpper r = "HIGH")
            ∧ (r.classification = some "SAFE_PATCH"
                ∨ r.classification = some "MINOR_BUMP")) := by
    rw [List.filter_filter]
    apply List.filter_congr
    intro r _
    rw [Bool.eq_iff_iff]
    simp only [Bool.and_eq_true, decide_eq_true_eq]
    rw [actionSevOk_iff, actionClsOk_iff]
    tauto
  have hranks : ∀ a ∈ (results.filter actionSevOk).filter actionClsOk,
      sevRank a = 0 ∨ sevRank a = 1 := by
    intro a ha
    have hsev : actionSevOk a = true :=
      (List.mem_filter.1 ((List.mem_filter.1 ha).1)).2
    rcases (actionSevOk_iff a).1 hsev with h | h
    · exact Or.inl ((sevRank_eq_zero_iff a).2 h)
    · exact Or.inr ((sevRank_eq_one_iff a).2 h)
  have hf0 : ∀ (l : List Finding), l.filter (fun a => sevRank a = 0)
      = l.filter (fun r => sevUpper r = "CRITICAL") := by
    intro l
    apply List.filter_congr
    intro r _
    exact decide_eq_decide.2 (sevRank_eq_zero_iff r)
  have hf1 : ∀ (l : List Finding), l.filter (fun a => sevRank a = 1)
      = l.filter (fun r => sevUpper r = "HIGH") := by
    intro l
    apply List.filter_congr
    intro r _
    exact decide_eq_decide.2 (sevRank_eq_one_iff r)
  constructor
  · simp only [buildSummary]
    rw [sortByKey_two_valued sevRank _ hranks, hf0, hf1, hsel]
  · simp only [buildSummary]
    rw [List.length_map, List.length_take]
    exact min_le_left _ _

/-- C7 witness: the bounds instantiated on the singleton findings array of
`lowercaseCritical`, whose only ecosystem summary is
`⟨"npm", 1, 0, 0, 1⟩`. -/
theorem ecosystem_counters_bounded_witness :
    (⟨"npm", 1, 0, 0, 1⟩ : EcosystemSummary).critical
        + (⟨"npm", 1, 0, 0, 1⟩ : EcosystemSummary).high
      ≤ (⟨"npm", 1, 0, 0, 1⟩ : EcosystemSummary).count
    ∧ (⟨"npm", 1, 0, 0, 1⟩ : EcosystemSummary).fixable
      ≤ (⟨"npm", 1, 0, 0, 1⟩ : EcosystemSummary).count :=
  ecosystem_counters_bounded "t" [lowercaseCritical] ⟨"npm", 1, 0, 0, 1⟩ (by decide)

theorem renderLines_split (s : Summary) :
    renderLines s
      = (renderLines s).dropLast ++ ["_Generated: " ++ s.generatedAt ++ "_"] := by
  conv_lhs => rw [renderLines]
  conv_rhs => rw [renderLines]
  rw [List.dropLast_append_of_ne_nil _ (by simp)]
  simp

/-- C9: rendering is a deterministic function of the summary: on summaries
with equal overview, ecosystems, action-required and confidence fields, equal
timestamps give character-identical reports, and in general the two line lists
agree on everything except the final `_Generated: …_` line, which is the only
place the timestamp appears. -/
theorem renderMarkdown_deterministic (s t : Summary)
    (hov : s.overview = t.overview) (heco : s.ecosystems = t.ecosystems)
    (hact : s.actionRequired = t.actionRequired)
    (hconf : s.confidence = t.confidence) :
    (s.generatedAt = t.generatedAt → renderMarkdown s = renderMarkdown t)
      ∧ (renderLines s).dropLast = (renderLines t).dropLast
      ∧ renderLines s
          = (renderLines s).dropLast ++ ["_Generated: " ++ s.generatedAt ++ "_"]
      ∧ renderLines t
          = (renderLines t).dropLast ++ ["_Generated: " ++ t.generatedAt ++ "_"] := by
  obtain ⟨gs, ovs, es, acts, cfs⟩ := s
  obtain ⟨gt, ovt, et, actt, cft⟩ := t
  simp only at hov heco hact hconf
  subst hov heco hact hconf
  refine ⟨?_, ?_, renderLines_split _, renderLines_split _⟩
  · intro hg
    simp only at hg
    subst hg
    rfl
  · unfold renderLines
    rw [List.dropLast_append_of_ne_nil _ (by simp),
      List.dropLast_append_of_ne_nil _ (by simp)]
    rfl

/-- C9 witness: two summaries built from the empty findings array that differ
only in the timestamp. -/
theorem renderMarkdown_deterministic_witness :
    ((buildSummary "A" []).generatedAt = (buildSummary "B" []).generatedAt
        → renderMarkdown (buildSummary "A" []) = renderMarkdown (buildSummary "B" []))
      ∧ (renderLines (buildSummary "A" [])).dropLast
          = (renderLines (buildSummary "B" [])).dropLast
      ∧ renderLines (buildSummary "A" [])
          = (renderLines (buildSummary "A" [])).dropLast
            ++ ["_Generated: " ++ (buildSummary "A" []).generatedAt ++ "_"]
      ∧ renderLines (buildSummary "B" [])
          = (renderLines (buildSummary "B" [])).dropLast
            ++ ["_Generated: " ++ (buildSummary "B" []).generatedAt ++ "_"] :=
  renderMarkdown_deterministic (buildSummary "A" []) (buildSummary "B" [])
    rfl rfl rfl rfl

end CveBump
